import Mathlib

/-!
Shallow embedding of the batch resource loader of src/io.rs (the Loader type),
for the native (non-wasm32) build, which is the blocking variant compiled on
this target.  On that build every operation of one load batch runs sequentially
on the calling thread: the dispatch loop of load_with_progress (io.rs 82-86)
performs the file open and read of each path synchronously inside load_file
(io.rs 154-167), and the poller wait_local (io.rs 104-133) first calls
Loader::sleep, which is std::thread::sleep followed by a plain call of the
continuation on the same thread (io.rs 135-142).  The execution of one call is
therefore a deterministic sequence of primitive actions, which we record as an
event trace; the unbounded recursion of wait_local is modelled with a fuel
parameter counting how many poll ticks we observe (a result of none means the
poller was still rescheduling itself when the observation horizon ran out).
Bytes are modelled as List Nat and the platform error std::io::Error as an
abstract code.
-/

/-- A platform I/O error value (std::io::Error in the source), abstracted to a
numeric code so that distinct errors can be told apart. -/
structure IOErr where
  code : Nat
deriving DecidableEq, Repr

/-- One value of the shared map: the Rust type Result<Vec<u8>, std::io::Error>.
Note that the Pending placeholder inserted at io.rs line 84 is Ok(Vec::new()),
that is, the same constructor as a successful read; it is not a separate
state. -/
inductive Outcome where
  | ok (bytes : List Nat)
  | err (e : IOErr)
deriving DecidableEq, Repr

/-- The shared result map: Loaded = HashMap<String, Result<Vec<u8>, Error>>
(io.rs line 61), modelled as an association list whose keys stay unique. -/
abbrev Loaded := List (String × Outcome)

/-- HashMap::insert: replace the value at an existing key, else append the new
binding. -/
def insertL : Loaded → String → Outcome → Loaded
  | [], k, v => [(k, v)]
  | kv :: rest, k, v => if kv.1 = k then (k, v) :: rest else kv :: insertL rest k v

/-- HashMap::get: the value bound to a key, if any. -/
def lookupL : Loaded → String → Option Outcome
  | [], _ => none
  | kv :: rest, k => if kv.1 = k then some kv.2 else lookupL rest k

/-- What the native platform boundary does for one path (io.rs 157-162):
opening the file can fail, reading it can fail, or it yields the bytes of the
file. -/
inductive FileCase where
  | absent (e : IOErr)
  | unreadable (e : IOErr)
  | bytes (bs : List Nat)
deriving DecidableEq, Repr

/-- The backing store: what the filesystem holds at each path. -/
abbrev FS := String → FileCase

/-- The observable primitive actions of one batch, in the order the calling
thread performs them on the native build. -/
inductive Ev where
  | seed (p : String)
  | openRead (p : String)
  | write (p : String) (o : Outcome)
  | sleep (ms : Nat)
  | progress (count total : Nat)
  | done (m : Loaded)
deriving DecidableEq, Repr

/-- Recognises the write events of a trace. -/
def isWriteEv : Ev → Bool
  | .write _ _ => true
  | _ => false

/-- Recognises a write event of the given path. -/
def isWriteOf (p : String) : Ev → Bool
  | .write q _ => q = p
  | _ => false

/-- Recognises the synchronous open-and-read events of a trace. -/
def isOpenReadEv : Ev → Bool
  | .openRead _ => true
  | _ => false

/-- Recognises the thread-sleep events of a trace. -/
def isSleepEv : Ev → Bool
  | .sleep _ => true
  | _ => false

/-- Recognises the completion-callback events of a trace. -/
def isDoneEv : Ev → Bool
  | .done _ => true
  | _ => false

/-- Recognises the progress-callback events of a trace. -/
def isProgressEv : Ev → Bool
  | .progress _ _ => true
  | _ => false

/-- The arguments of the progress-callback events of a trace, in order: the
resolved count and the total count of the reported ratio. -/
def progressPayloads (evs : List Ev) : List (Nat × Nat) :=
  evs.filterMap fun e =>
    match e with
    | .progress c t => some (c, t)
    | _ => none

/-- The ratio a progress payload denotes, as an exact rational; the f32 value
the code computes at io.rs line 120 is count as f32 / total as f32. -/
def ratioQ (c t : Nat) : ℚ := (c : ℚ) / (t : ℚ)

namespace Loader

/-- The placeholder inserted for every path before its fetch is dispatched:
io.rs line 84 inserts Ok(Vec::new()). -/
def pendingPlaceholder : Outcome := Outcome.ok []

/-- The terminal outcome the blocking fetch computes for one path
(io.rs 157-162): open the file, and on success run
f.read_to_end(&mut bytes).and(Ok(bytes)). -/
def outcomeOf (fs : FS) (path : String) : Outcome :=
  match fs path with
  | .bytes bs => .ok bs
  | .unreadable e => .err e
  | .absent e => .err e

/-- load_file of io.rs 154-167, native variant: attempt the synchronous open
and read, then insert exactly one terminal outcome into the map (line 163 on
the open-ok arm, line 165 on the open-error arm).  Returns the updated map and
the actions performed. -/
def load_file (fs : FS) (path : String) (loads : Loaded) : Loaded × List Ev :=
  match fs path with
  | .bytes bs =>
      (insertL loads path (.ok bs), [.openRead path, .write path (.ok bs)])
  | .unreadable e =>
      (insertL loads path (.err e), [.openRead path, .write path (.err e)])
  | .absent e =>
      (insertL loads path (.err e), [.openRead path, .write path (.err e)])

/-- The dispatch loop of load_with_progress (io.rs 83-86): for each path in
order, insert the pending placeholder and then run load_file on that path.  On
the native build load_file runs to completion synchronously inside the loop
iteration. -/
def dispatch (fs : FS) : List String → Loaded → Loaded × List Ev
  | [], m => (m, [])
  | p :: ps, m =>
    let r := load_file fs p (insertL m p pendingPlaceholder)
    let rest := dispatch fs ps r.1
    (rest.1, Ev.seed p :: r.2 ++ rest.2)

/-- Whether one map entry counts as resolved on a poll tick: io.rs line 116,
bytes.is_err() or bytes.as_ref().unwrap().len() > 0.  A successful entry with
an empty buffer, which is also the pending placeholder, does not count. -/
def resolvedB : Outcome → Bool
  | .err _ => true
  | .ok bs => decide (0 < bs.length)

/-- The counting loop of io.rs 114-119: fold over the values of the map,
adding one for every resolved entry. -/
def countResolved (m : Loaded) : Nat :=
  m.foldl (fun count kv => if resolvedB kv.2 then count + 1 else count) 0

/-- wait_local of io.rs 104-133, native variant, with a fuel bound on the
number of observed ticks.  Each tick is: Loader::sleep blocks the thread for
100 ms and then runs the closure; the closure borrows the map (in this
sequential embedding the borrow always succeeds), counts the resolved entries,
reports count / total to the progress callback, and either recurses (count <
total) or hands the map to on_done.  Fuel 0 means the observation stops while
the poller is still rescheduling, so no final map is available. -/
def wait_local : Nat → Loaded → List Ev × Option Loaded
  | 0, _ => ([], none)
  | fuel + 1, m =>
    if countResolved m < m.length then
      (Ev.sleep 100 :: Ev.progress (countResolved m) m.length :: (wait_local fuel m).1,
       (wait_local fuel m).2)
    else
      ([Ev.sleep 100, Ev.progress (countResolved m) m.length, Ev.done m], some m)

/-- load_with_progress of io.rs 77-89, native build: run the dispatch loop on
an empty map, then the poller.  The trace is everything the calling thread
does before the call returns. -/
def load_with_progress (fs : FS) (paths : List String) (fuel : Nat) :
    List Ev × Option Loaded :=
  ((dispatch fs paths []).2 ++ (wait_local fuel (dispatch fs paths []).1).1,
   (wait_local fuel (dispatch fs paths []).1).2)

end Loader

/-- The error enum of io.rs 20-31 as compiled for the native build without
optional features: the IO variant wrapping std::io::Error (line 29, here named
ioFail) and FailedToLoad with a message (line 30). -/
inductive Error where
  | ioFail (e : IOErr)
  | FailedToLoad (message : String)
deriving DecidableEq, Repr

/-- The constructor, that is the error kind, of an Error value. -/
def errCtorName : Error → String
  | .ioFail _ => "IO"
  | .FailedToLoad _ => "FailedToLoad"

/-- The error kind of the result of a lookup, if the lookup failed. -/
def errKindOf : Except Error (List Nat) → Option String
  | .error e => some (errCtorName e)
  | .ok _ => none

namespace Loader

/-- Loader::get of io.rs 91-96: a missing key and a Failure entry both map to
Error::FailedToLoad, with different message texts; a Success entry returns its
bytes. -/
def get (loaded : Loaded) (path : String) : Except Error (List Nat) :=
  match lookupL loaded path with
  | none =>
      .error (.FailedToLoad ("Tried to use a resource which was not loaded: " ++ path))
  | some (.err _) =>
      .error (.FailedToLoad ("Could not load resource: " ++ path))
  | some (.ok bs) => .ok bs

end Loader

/-- Checks the reading of claim C7 on a trace: every requested path is seeded
before the first fetch write occurs. -/
def fullySeededBeforeFirstWrite (paths : List String) (evs : List Ev) : Bool :=
  decide (∀ p ∈ paths, Ev.seed p ∈ evs.takeWhile fun e => !isWriteEv e)

/-- Checks the per-path ordering: the seed of a path occurs before the first
write to that same path. -/
def seedPrecedesOwnWrite (p : String) (evs : List Ev) : Bool :=
  decide (Ev.seed p ∈ evs.takeWhile fun e => !isWriteOf p e)

/-- A backing store with one three-byte file, scenario A of the spec. -/
def fs1 : FS := fun p =>
  if p = "a.bin" then FileCase.bytes [1, 2, 3] else FileCase.absent ⟨1⟩

/-- A backing store with two readable files of one byte each. -/
def fs2 : FS := fun p =>
  if p = "a" then FileCase.bytes [1]
  else if p = "b" then FileCase.bytes [2]
  else FileCase.absent ⟨2⟩

/-- A backing store where every file opens and reads as zero bytes, scenario D
of the spec. -/
def fsEmptyFile : FS := fun _ => FileCase.bytes []


section MapLemmas

/-- Looking up after an insert: the inserted key sees the new value, every
other key is untouched. -/
theorem lookupL_insertL (m : Loaded) (k k' : String) (v : Outcome) :
    lookupL (insertL m k v) k' = if k' = k then some v else lookupL m k' := by
  induction m with
  | nil =>
    by_cases h : k = k'
    · simp [insertL, lookupL, h]
    · simp [insertL, lookupL, h, Ne.symm h]
  | cons kv rest ih =>
    by_cases h1 : kv.1 = k
    · by_cases h2 : k = k'
      · simp [insertL, lookupL, h1, h2]
      · have h3 : ¬kv.1 = k' := by rw [h1]; exact h2
        simp [insertL, lookupL, h1, h2, Ne.symm h2, h3]
    · by_cases h2 : kv.1 = k'
      · have h3 : ¬k' = k := fun h => h1 (h2.trans h)
        simp [insertL, lookupL, h1, h2, h3]
      · simp [insertL, lookupL, h1, h2, ih]

/-- Every entry of an inserted map is an old entry or the new binding. -/
theorem mem_insertL {m : Loaded} {k : String} {v : Outcome} {kv : String × Outcome}
    (h : kv ∈ insertL m k v) : kv ∈ m ∨ kv = (k, v) := by
  induction m with
  | nil =>
    simp [insertL] at h
    exact Or.inr h
  | cons hd rest ih =>
    by_cases h1 : hd.1 = k
    · simp [insertL, h1] at h
      rcases h with h | h
      · exact Or.inr (by simp [h])
      · exact Or.inl (List.mem_cons_of_mem _ h)
    · simp [insertL, h1] at h
      rcases h with h | h
      · exact Or.inl (by simp [h])
      · rcases ih h with h2 | h2
        · exact Or.inl (List.mem_cons_of_mem _ h2)
        · exact Or.inr h2

/-- Two inserts at the same key collapse to the last one. -/
theorem insertL_insertL (m : Loaded) (k : String) (a b : Outcome) :
    insertL (insertL m k a) k b = insertL m k b := by
  induction m with
  | nil => simp [insertL]
  | cons kv rest ih =>
    by_cases h : kv.1 = k
    · simp [insertL, h]
    · simp [insertL, h, ih]

/-- Key membership after an insert. -/
theorem mem_keys_insertL (m : Loaded) (k : String) (v : Outcome) (q : String) :
    q ∈ (insertL m k v).map Prod.fst ↔ q = k ∨ q ∈ m.map Prod.fst := by
  induction m with
  | nil => simp [insertL]
  | cons kv rest ih =>
    by_cases h1 : kv.1 = k
    · rw [show insertL (kv :: rest) k v = (k, v) :: rest from by simp [insertL, h1]]
      simp only [List.map_cons, List.mem_cons, h1]
      tauto
    · rw [show insertL (kv :: rest) k v = kv :: insertL rest k v from by simp [insertL, h1]]
      simp only [List.map_cons, List.mem_cons, ih]
      tauto

/-- Inserting preserves uniqueness of the keys. -/
theorem nodup_keys_insertL {m : Loaded} (k : String) (v : Outcome)
    (h : (m.map Prod.fst).Nodup) : ((insertL m k v).map Prod.fst).Nodup := by
  induction m with
  | nil => simp [insertL]
  | cons kv rest ih =>
    rw [List.map_cons, List.nodup_cons] at h
    by_cases h1 : kv.1 = k
    · rw [show insertL (kv :: rest) k v = (k, v) :: rest from by simp [insertL, h1]]
      rw [List.map_cons, List.nodup_cons]
      exact ⟨fun hk => h.1 (by rw [h1]; exact hk), h.2⟩
    · rw [show insertL (kv :: rest) k v = kv :: insertL rest k v from by simp [insertL, h1]]
      rw [List.map_cons, List.nodup_cons]
      refine ⟨fun hk => ?_, ih h.2⟩
      rcases (mem_keys_insertL rest k v kv.1).1 hk with h2 | h2
      · exact h1 h2
      · exact h.1 h2

end MapLemmas

section CountLemmas

/-- The counting fold of io.rs 114-119 with an arbitrary accumulator. -/
theorem countResolved_aux (m : Loaded) (n : Nat) :
    m.foldl (fun count kv => if Loader.resolvedB kv.2 then count + 1 else count) n
      = n + m.countP (fun kv => Loader.resolvedB kv.2) := by
  induction m generalizing n with
  | nil => simp
  | cons kv rest ih =>
    by_cases h : Loader.resolvedB kv.2
    · simp [List.countP_cons, h, ih]
      omega
    · simp [List.countP_cons, h, ih]

/-- The resolved counter is the number of entries satisfying resolvedB. -/
theorem countResolved_eq_countP (m : Loaded) :
    Loader.countResolved m = m.countP (fun kv => Loader.resolvedB kv.2) := by
  simpa using countResolved_aux m 0

/-- The resolved count never exceeds the total count. -/
theorem countResolved_le_length (m : Loaded) : Loader.countResolved m ≤ m.length := by
  rw [countResolved_eq_countP]
  exact List.countP_le_length _

/-- The resolved count equals the total count exactly when every entry is
resolved. -/
theorem countResolved_eq_length_iff (m : Loaded) :
    Loader.countResolved m = m.length ↔ ∀ kv ∈ m, Loader.resolvedB kv.2 = true := by
  rw [countResolved_eq_countP]
  exact List.countP_eq_length

/-- The resolved count is below the total count exactly when some entry is
unresolved. -/
theorem countResolved_lt_iff (m : Loaded) :
    Loader.countResolved m < m.length ↔ ∃ kv ∈ m, Loader.resolvedB kv.2 = false := by
  constructor
  · intro h
    by_contra hc
    push_neg at hc
    have hall : ∀ kv ∈ m, Loader.resolvedB kv.2 = true := by
      intro kv hkv
      have := hc kv hkv
      simpa using this
    rw [(countResolved_eq_length_iff m).mpr hall] at h
    omega
  · rintro ⟨kv, hkv, hres⟩
    have hle := countResolved_le_length m
    have hne : Loader.countResolved m ≠ m.length := by
      intro heq
      have := (countResolved_eq_length_iff m).mp heq kv hkv
      rw [this] at hres
      cases hres
    omega

end CountLemmas

section DispatchLemmas

/-- load_file always inserts the terminal outcome of its path after the
synchronous open and read. -/
theorem load_file_eq (fs : FS) (p : String) (m : Loaded) :
    Loader.load_file fs p m =
      (insertL m p (Loader.outcomeOf fs p),
       [Ev.openRead p, Ev.write p (Loader.outcomeOf fs p)]) := by
  cases h : fs p <;> simp [Loader.load_file, Loader.outcomeOf, h]

/-- One step of the dispatch loop: the pending insert is immediately
overwritten by the synchronous fetch of the same path. -/
theorem dispatch_cons (fs : FS) (p : String) (ps : List String) (m : Loaded) :
    Loader.dispatch fs (p :: ps) m =
      ((Loader.dispatch fs ps (insertL m p (Loader.outcomeOf fs p))).1,
       Ev.seed p :: Ev.openRead p :: Ev.write p (Loader.outcomeOf fs p) ::
         (Loader.dispatch fs ps (insertL m p (Loader.outcomeOf fs p))).2) := by
  simp [Loader.dispatch, load_file_eq, insertL_insertL, Loader.pendingPlaceholder]

/-- The map after the dispatch loop: every requested path is bound to the
terminal outcome of its fetch, every other key is untouched. -/
theorem dispatch_lookup (fs : FS) (ps : List String) (m : Loaded) (q : String) :
    lookupL (Loader.dispatch fs ps m).1 q =
      if q ∈ ps then some (Loader.outcomeOf fs q) else lookupL m q := by
  induction ps generalizing m with
  | nil => simp [Loader.dispatch]
  | cons p rest ih =>
    rw [dispatch_cons]
    by_cases hq : q ∈ rest
    · simp [ih, hq]
    · by_cases hqp : q = p
      · subst hqp
        simp [ih, hq, lookupL_insertL]
      · simp [ih, hq, hqp, lookupL_insertL]

/-- Every entry of the dispatched map is an entry of the initial map or the
terminal outcome of a requested path. -/
theorem dispatch_entries (fs : FS) (ps : List String) (m : Loaded)
    (kv : String × Outcome) (h : kv ∈ (Loader.dispatch fs ps m).1) :
    kv ∈ m ∨ (kv.1 ∈ ps ∧ kv.2 = Loader.outcomeOf fs kv.1) := by
  induction ps generalizing m with
  | nil => exact Or.inl (by simpa [Loader.dispatch] using h)
  | cons p rest ih =>
    rw [dispatch_cons] at h
    rcases ih _ h with h2 | h2
    · rcases mem_insertL h2 with h3 | h3
      · exact Or.inl h3
      · subst h3
        exact Or.inr ⟨by simp, by simp⟩
    · exact Or.inr ⟨List.mem_cons_of_mem _ h2.1, h2.2⟩

/-- Dispatching preserves uniqueness of the keys. -/
theorem dispatch_keys_nodup (fs : FS) (ps : List String) (m : Loaded)
    (h : (m.map Prod.fst).Nodup) :
    (((Loader.dispatch fs ps m).1).map Prod.fst).Nodup := by
  induction ps generalizing m with
  | nil => simpa [Loader.dispatch] using h
  | cons p rest ih =>
    rw [dispatch_cons]
    exact ih _ (nodup_keys_insertL _ _ h)

/-- Every event of the dispatch trace is the seed, the open-and-read or the
terminal write of one of the requested paths. -/
theorem dispatch_trace_events (fs : FS) (ps : List String) (m : Loaded)
    (e : Ev) (h : e ∈ (Loader.dispatch fs ps m).2) :
    ∃ p, p ∈ ps ∧
      (e = Ev.seed p ∨ e = Ev.openRead p ∨ e = Ev.write p (Loader.outcomeOf fs p)) := by
  induction ps generalizing m with
  | nil => simp [Loader.dispatch] at h
  | cons p rest ih =>
    rw [dispatch_cons] at h
    simp only [List.mem_cons] at h
    rcases h with h | h | h | h
    · exact ⟨p, List.mem_cons_self p rest, Or.inl h⟩
    · exact ⟨p, List.mem_cons_self p rest, Or.inr (Or.inl h)⟩
    · exact ⟨p, List.mem_cons_self p rest, Or.inr (Or.inr h)⟩
    · obtain ⟨q, hq, he⟩ := ih _ h
      exact ⟨q, List.mem_cons_of_mem _ hq, he⟩

/-- The dispatch loop never fires a callback: no done and no progress event
occurs before the poller starts. -/
theorem dispatch_trace_no_callback (fs : FS) (ps : List String) (m : Loaded)
    (e : Ev) (h : e ∈ (Loader.dispatch fs ps m).2) :
    isDoneEv e = false ∧ isProgressEv e = false := by
  obtain ⟨p, _, he⟩ := dispatch_trace_events fs ps m e h
  rcases he with he | he | he <;> subst he <;> simp [isDoneEv, isProgressEv]

/-- Every requested path gets a synchronous open-and-read during dispatch. -/
theorem dispatch_trace_openRead (fs : FS) (ps : List String) (m : Loaded)
    (p : String) (hp : p ∈ ps) :
    Ev.openRead p ∈ (Loader.dispatch fs ps m).2 := by
  induction ps generalizing m with
  | nil => simp at hp
  | cons q rest ih =>
    rw [dispatch_cons]
    rcases List.mem_cons.mp hp with h | h
    · subst h
      simp
    · exact List.mem_cons_of_mem _ (List.mem_cons_of_mem _
        (List.mem_cons_of_mem _ (ih _ h)))

end DispatchLemmas

section PollerLemmas

/-- While some entry is unresolved the poller keeps rescheduling: no amount of
observed ticks makes it finish, because on the native build the map can no
longer change once wait_local starts. -/
theorem wait_local_stuck (m : Loaded) (h : Loader.countResolved m < m.length) :
    ∀ fuel, (Loader.wait_local fuel m).2 = none := by
  intro fuel
  induction fuel with
  | zero => simp [Loader.wait_local]
  | succ k ih => simp [Loader.wait_local, h, ih]

/-- When every entry is resolved the first observed tick reports progress and
fires the completion callback with the map itself. -/
theorem wait_local_finish (m : Loaded) (h : ¬Loader.countResolved m < m.length)
    (fuel : Nat) :
    Loader.wait_local (fuel + 1) m =
      ([Ev.sleep 100, Ev.progress (Loader.countResolved m) m.length, Ev.done m],
       some m) := by
  simp [Loader.wait_local, h]

/-- The poller either never finishes within the observed ticks or hands over
exactly the map it was started with: it mutates nothing. -/
theorem wait_local_result (m : Loaded) (fuel : Nat) :
    (Loader.wait_local fuel m).2 = none ∨ (Loader.wait_local fuel m).2 = some m := by
  induction fuel with
  | zero => simp [Loader.wait_local]
  | succ k ih =>
    by_cases h : Loader.countResolved m < m.length
    · simpa [Loader.wait_local, h] using ih
    · simp [Loader.wait_local, h]

/-- The completion callback fires exactly once if the poller finishes within
the observed ticks and never otherwise. -/
theorem wait_local_done_countP (m : Loaded) (fuel : Nat) :
    ((Loader.wait_local fuel m).1.countP isDoneEv)
      = if (Loader.wait_local fuel m).2.isSome then 1 else 0 := by
  induction fuel with
  | zero => simp [Loader.wait_local]
  | succ k ih =>
    by_cases h : Loader.countResolved m < m.length
    · simpa [Loader.wait_local, h, List.countP_cons, isDoneEv] using ih
    · simp [Loader.wait_local, h, List.countP_cons, isDoneEv]

/-- Every progress report of the poller carries the resolved count and the
total count of the map it was started with. -/
theorem wait_local_progress_mem (m : Loaded) (fuel : Nat) (c t : Nat)
    (h : Ev.progress c t ∈ (Loader.wait_local fuel m).1) :
    c = Loader.countResolved m ∧ t = m.length := by
  induction fuel with
  | zero => simp [Loader.wait_local] at h
  | succ k ih =>
    by_cases hl : Loader.countResolved m < m.length
    · simp only [Loader.wait_local, if_pos hl, List.mem_cons] at h
      rcases h with h | h | h
      · cases h
      · cases h
        exact ⟨rfl, rfl⟩
      · exact ih h
    · simp only [Loader.wait_local, if_neg hl, List.mem_cons] at h
      rcases h with h | h | h | h
      · cases h
      · cases h
        exact ⟨rfl, rfl⟩
      · cases h
      · simp at h

/-- Every observed tick of the poller starts by sleeping the thread. -/
theorem wait_local_sleep_mem (m : Loaded) (fuel : Nat) (h : 0 < fuel) :
    Ev.sleep 100 ∈ (Loader.wait_local fuel m).1 := by
  obtain ⟨k, rfl⟩ : ∃ k, fuel = k + 1 := ⟨fuel - 1, by omega⟩
  by_cases hl : Loader.countResolved m < m.length <;> simp [Loader.wait_local, hl]

/-- If the poller finishes, the completion event with the final map is in the
trace. -/
theorem wait_local_done_mem (m m' : Loaded) (fuel : Nat)
    (h : (Loader.wait_local fuel m).2 = some m') :
    Ev.done m' ∈ (Loader.wait_local fuel m).1 := by
  induction fuel with
  | zero => simp [Loader.wait_local] at h
  | succ k ih =>
    by_cases hl : Loader.countResolved m < m.length
    · simp only [Loader.wait_local, if_pos hl] at h ⊢
      simp only [List.mem_cons]
      exact Or.inr (Or.inr (ih h))
    · simp only [Loader.wait_local, if_neg hl] at h ⊢
      cases h
      simp

end PollerLemmas

section TraceHelpers

/-- A list all of whose elements equal a reflexive point is pairwise related. -/
theorem pairwise_of_all_eq {α : Type} (l : List α) (a : α) (r : α → α → Prop)
    (h : ∀ x ∈ l, x = a) (hr : r a a) : l.Pairwise r := by
  induction l with
  | nil => exact List.Pairwise.nil
  | cons x rest ih =>
    refine List.Pairwise.cons ?_ (ih fun y hy => h y (List.mem_cons_of_mem _ hy))
    intro y hy
    rw [h x (List.mem_cons_self x rest), h y (List.mem_cons_of_mem _ hy)]
    exact hr

/-- A pair is a progress payload of a trace exactly when the trace holds the
matching progress event. -/
theorem mem_progressPayloads (evs : List Ev) (c t : Nat) :
    (c, t) ∈ progressPayloads evs ↔ Ev.progress c t ∈ evs := by
  rw [progressPayloads, List.mem_filterMap]
  constructor
  · rintro ⟨e, he, hf⟩
    cases e <;> simp at hf
    obtain ⟨h1, h2⟩ := hf
    subst h1
    subst h2
    exact he
  · intro h
    exact ⟨Ev.progress c t, h, rfl⟩

/-- The dispatch loop reports no progress payload. -/
theorem progressPayloads_dispatch (fs : FS) (ps : List String) (m : Loaded) :
    progressPayloads (Loader.dispatch fs ps m).2 = [] := by
  rw [progressPayloads, List.filterMap_eq_nil_iff]
  intro e he
  have h := (dispatch_trace_no_callback fs ps m e he).2
  cases e <;> simp_all [isProgressEv]

/-- A key that can be looked up forces the map to be non-empty. -/
theorem lookupL_isSome_length (m : Loaded) (q : String) (v : Outcome)
    (h : lookupL m q = some v) : 0 < m.length := by
  cases m with
  | nil => simp [lookupL] at h
  | cons kv rest => simp

/-- Every progress payload of a full load_with_progress trace carries the
resolved count and the total count of the dispatched map. -/
theorem payload_of_mem (fs : FS) (paths : List String) (fuel : Nat) (c t : Nat)
    (h : (c, t) ∈ progressPayloads (Loader.load_with_progress fs paths fuel).1) :
    c = Loader.countResolved (Loader.dispatch fs paths []).1 ∧
    t = (Loader.dispatch fs paths []).1.length := by
  rw [mem_progressPayloads] at h
  have h2 : Ev.progress c t ∈ (Loader.dispatch fs paths []).2
      ∨ Ev.progress c t
          ∈ (Loader.wait_local fuel (Loader.dispatch fs paths []).1).1 := by
    simpa [Loader.load_with_progress] using h
  rcases h2 with h2 | h2
  · have h3 := (dispatch_trace_no_callback fs paths [] _ h2).2
    simp [isProgressEv] at h3
  · exact wait_local_progress_mem _ _ _ _ h2

end TraceHelpers

section SeedOrder

/-- Each path of the dispatch loop is seeded strictly before its own terminal
write: its seed event survives the take-while that stops at the first write to
that path. -/
theorem seed_before_own_write (fs : FS) (ps : List String) (m : Loaded)
    (p : String) (hp : p ∈ ps) :
    Ev.seed p ∈ (Loader.dispatch fs ps m).2.takeWhile (fun e => !isWriteOf p e) := by
  induction ps generalizing m with
  | nil => simp at hp
  | cons q rest ih =>
    rw [dispatch_cons]
    by_cases hpq : p = q
    · subst hpq
      simp [List.takeWhile_cons, isWriteOf]
    · have h : p ∈ rest := by
        rcases List.mem_cons.mp hp with h | h
        · exact absurd h hpq
        · exact h
      have h1 : isWriteOf p (Ev.seed q) = false := by simp [isWriteOf]
      have h2 : isWriteOf p (Ev.openRead q) = false := by simp [isWriteOf]
      have h3 : isWriteOf p (Ev.write q (Loader.outcomeOf fs q)) = false := by
        simp [isWriteOf]
        exact fun hh => hpq hh.symm
      simp only [List.takeWhile_cons, h1, h2, h3, Bool.not_false, if_pos,
        List.mem_cons]
      exact Or.inr (Or.inr (Or.inr (ih _ h)))

end SeedOrder

/-- C2: on every poll tick where the map can be read, an entry counts as
resolved exactly when it is a Failure or a Success with a non-empty buffer, so
a zero-length successful result is counted as unresolved; and the poller
reschedules itself, deferring the outcome to the remaining ticks, exactly when
the resolved count is below the total count, equivalently exactly when some
entry of the map is unresolved. -/
theorem c2_resolution_and_reschedule (m : Loaded) :
    (∀ o : Outcome, Loader.resolvedB o = true ↔
      ((∃ e, o = Outcome.err e) ∨ ∃ bs, o = Outcome.ok bs ∧ bs ≠ [])) ∧
    Loader.resolvedB (Outcome.ok []) = false ∧
    (∀ fuel : Nat, (Loader.wait_local (fuel + 1) m).2 =
      if Loader.countResolved m < m.length then (Loader.wait_local fuel m).2
      else some m) ∧
    ((Loader.wait_local 1 m).2 = none ↔
      ∃ kv ∈ m, Loader.resolvedB kv.2 = false) := by
  refine ⟨?_, rfl, ?_, ?_⟩
  · intro o
    cases o with
    | ok bs => cases bs <;> simp [Loader.resolvedB]
    | err e => simp [Loader.resolvedB]
  · intro fuel
    by_cases h : Loader.countResolved m < m.length <;>
      simp [Loader.wait_local, h]
  · rw [← countResolved_lt_iff]
    by_cases h : Loader.countResolved m < m.length <;>
      simp [Loader.wait_local, h]

/-- A map whose only entry is a failed fetch, used to exercise both failing
lookups. -/
def mC3 : Loaded := [("bad", Outcome.err ⟨5⟩)]

/-- C3 counterexample: the code has no distinct NotLoaded and LoadFailed error
kinds.  A lookup of an identifier that was never requested and a lookup of an
identifier whose fetch failed both return the one kind FailedToLoad of the
Error enum, told apart only by their message text. -/
theorem c3_same_error_kind_counterexample :
    errKindOf (Loader.get mC3 "missing") = some "FailedToLoad" ∧
    errKindOf (Loader.get mC3 "bad") = some "FailedToLoad" ∧
    errKindOf (Loader.get mC3 "missing") = errKindOf (Loader.get mC3 "bad") := by
  refine ⟨by decide, by decide, by decide⟩

/-- C3 amended: get fails with the single kind Error.FailedToLoad in both
failure modes, carrying the message Tried to use a resource which was not
loaded when the identifier is absent from the map and the message Could not
load resource when the entry is a Failure; otherwise it returns exactly the
stored bytes. -/
theorem c3_get_amended (m : Loaded) (p : String) :
    (lookupL m p = none → Loader.get m p =
      Except.error (Error.FailedToLoad
        ("Tried to use a resource which was not loaded: " ++ p))) ∧
    (∀ e, lookupL m p = some (Outcome.err e) → Loader.get m p =
      Except.error (Error.FailedToLoad ("Could not load resource: " ++ p))) ∧
    (∀ bs, lookupL m p = some (Outcome.ok bs) → Loader.get m p = Except.ok bs) := by
  refine ⟨fun h => by simp [Loader.get, h], fun e h => by simp [Loader.get, h],
    fun bs h => by simp [Loader.get, h]⟩

/-- C3 witness: the amended behaviour at concrete maps and identifiers. -/
theorem c3_get_witness :
    Loader.get mC3 "bad" =
      Except.error (Error.FailedToLoad ("Could not load resource: " ++ "bad")) ∧
    Loader.get mC3 "missing" =
      Except.error (Error.FailedToLoad
        ("Tried to use a resource which was not loaded: " ++ "missing")) ∧
    Loader.get [("x", Outcome.ok [7])] "x" = Except.ok [7] :=
  ⟨(c3_get_amended mC3 "bad").2.1 ⟨5⟩ (by decide),
   (c3_get_amended mC3 "missing").1 (by decide),
   (c3_get_amended [("x", Outcome.ok [7])] "x").2.2 [7] (by decide)⟩

/-- C4: the blocking fetch performs exactly one terminal write per requested
identifier: Success with the bytes read when open and read succeed, Failure
carrying the platform error when the open or the read fails; it touches no
other key, a failed outcome still counts as resolved for completion, and every
sibling of a batch gets its own write no matter what the others do. -/
theorem c4_single_terminal_write (fs : FS) (p : String) (m : Loaded) :
    ((Loader.load_file fs p m).2.filter isWriteEv
        = [Ev.write p (Loader.outcomeOf fs p)]) ∧
    ((Loader.load_file fs p m).1 = insertL m p (Loader.outcomeOf fs p)) ∧
    (∀ bs, fs p = FileCase.bytes bs → Loader.outcomeOf fs p = Outcome.ok bs) ∧
    (∀ e, fs p = FileCase.absent e → Loader.outcomeOf fs p = Outcome.err e) ∧
    (∀ e, fs p = FileCase.unreadable e → Loader.outcomeOf fs p = Outcome.err e) ∧
    (∀ q, q ≠ p → lookupL (Loader.load_file fs p m).1 q = lookupL m q) ∧
    (∀ e, Loader.outcomeOf fs p = Outcome.err e →
      Loader.resolvedB (Loader.outcomeOf fs p) = true) ∧
    (∀ paths q, q ∈ paths →
      lookupL (Loader.dispatch fs paths []).1 q
        = some (Loader.outcomeOf fs q)) := by
  refine ⟨?_, ?_, ?_, ?_, ?_, ?_, ?_, ?_⟩
  · simp [load_file_eq, isWriteEv]
  · simp [load_file_eq]
  · intro bs h
    simp [Loader.outcomeOf, h]
  · intro e h
    simp [Loader.outcomeOf, h]
  · intro e h
    simp [Loader.outcomeOf, h]
  · intro q hq
    simp [load_file_eq, lookupL_insertL, hq]
  · intro e h
    rw [h]
    rfl
  · intro paths q hq
    rw [dispatch_lookup]
    simp [hq]

/-- C4 witness: a concrete failing fetch writes the Failure, counts as
resolved, and its sibling in the same batch is still written. -/
theorem c4_single_terminal_write_witness :
    Loader.outcomeOf fs1 "missing.bin" = Outcome.err ⟨1⟩ ∧
    Loader.resolvedB (Loader.outcomeOf fs1 "missing.bin") = true ∧
    lookupL (Loader.dispatch fs1 ["missing.bin", "a.bin"] []).1 "a.bin"
      = some (Loader.outcomeOf fs1 "a.bin") :=
  ⟨(c4_single_terminal_write fs1 "missing.bin" []).2.2.2.1 ⟨1⟩ (by decide),
   (c4_single_terminal_write fs1 "missing.bin" []).2.2.2.2.2.2.1 ⟨1⟩ (by decide),
   (c4_single_terminal_write fs1 "a.bin" []).2.2.2.2.2.2.2
     ["missing.bin", "a.bin"] "a.bin" (by decide)⟩

/-- C1 counterexample: a non-empty batch consisting of one zero-length
readable file never completes.  Its fetch writes a successful empty outcome,
which every tick counts as unresolved, so the completion callback is never
invoked no matter how many poll ticks are observed. -/
theorem c1_zero_length_batch_never_completes :
    ¬ ∃ fuel,
      ((Loader.load_with_progress fsEmptyFile ["empty.bin"] fuel).2).isSome
        = true := by
  rintro ⟨fuel, h⟩
  have hm : (Loader.dispatch fsEmptyFile ["empty.bin"] []).1
      = [("empty.bin", Outcome.ok [])] := by decide
  have hlt : Loader.countResolved [("empty.bin", Outcome.ok [])]
      < ([("empty.bin", Outcome.ok [])] : Loaded).length := by decide
  have h2 : (Loader.load_with_progress fsEmptyFile ["empty.bin"] fuel).2
      = (Loader.wait_local fuel
          (Loader.dispatch fsEmptyFile ["empty.bin"] []).1).2 := rfl
  rw [h2, hm, wait_local_stuck _ hlt fuel] at h
  cases h

/-- C1 amended: for every batch in which each fetch outcome is resolved, that
is a Failure or a Success with a non-empty buffer, the completion callback
fires exactly once, with the fully dispatched map, whose entries are then all
resolved and which holds exactly one entry per requested identifier.  A batch
containing a zero-length successful read instead polls forever and the
callback never fires. -/
theorem c1_completion_amended (fs : FS) (paths : List String) (fuel : Nat)
    (_hne : paths ≠ []) (hfuel : 0 < fuel)
    (hres : ∀ p ∈ paths, Loader.resolvedB (Loader.outcomeOf fs p) = true) :
    (Loader.load_with_progress fs paths fuel).2
      = some (Loader.dispatch fs paths []).1 ∧
    ((Loader.load_with_progress fs paths fuel).1.countP isDoneEv) = 1 ∧
    (∀ kv ∈ (Loader.dispatch fs paths []).1, Loader.resolvedB kv.2 = true) ∧
    (∀ q, (lookupL (Loader.dispatch fs paths []).1 q).isSome = true ↔
      q ∈ paths) ∧
    ((Loader.dispatch fs paths []).1.map Prod.fst).Nodup := by
  have hall : ∀ kv ∈ (Loader.dispatch fs paths []).1,
      Loader.resolvedB kv.2 = true := by
    intro kv hkv
    rcases dispatch_entries fs paths [] kv hkv with h | h
    · simp at h
    · rw [h.2]
      exact hres kv.1 h.1
  have heq : Loader.countResolved (Loader.dispatch fs paths []).1
      = (Loader.dispatch fs paths []).1.length :=
    (countResolved_eq_length_iff _).mpr hall
  have hnlt : ¬ Loader.countResolved (Loader.dispatch fs paths []).1
      < (Loader.dispatch fs paths []).1.length := by omega
  obtain ⟨k, rfl⟩ : ∃ k, fuel = k + 1 := ⟨fuel - 1, by omega⟩
  refine ⟨?_, ?_, hall, ?_, dispatch_keys_nodup fs paths [] (by simp)⟩
  · have h2 : (Loader.load_with_progress fs paths (k + 1)).2
        = (Loader.wait_local (k + 1) (Loader.dispatch fs paths []).1).2 := rfl
    rw [h2, wait_local_finish _ hnlt k]
  · have h2 : (Loader.load_with_progress fs paths (k + 1)).1
        = (Loader.dispatch fs paths []).2
          ++ (Loader.wait_local (k + 1) (Loader.dispatch fs paths []).1).1 := rfl
    rw [h2, List.countP_append]
    have hz : ((Loader.dispatch fs paths []).2.countP isDoneEv) = 0 := by
      rw [List.countP_eq_zero]
      intro e he
      simp [(dispatch_trace_no_callback fs paths [] e he).1]
    rw [hz, wait_local_finish _ hnlt k]
    simp [List.countP_cons, isDoneEv]
  · intro q
    rw [dispatch_lookup]
    by_cases hq : q ∈ paths <;> simp [hq, lookupL]

/-- C1 witness: scenario A, a one-file batch backed by three bytes, completes
on the first tick with exactly one completion callback. -/
theorem c1_completion_witness :
    (Loader.load_with_progress fs1 ["a.bin"] 1).2
      = some (Loader.dispatch fs1 ["a.bin"] []).1 ∧
    ((Loader.load_with_progress fs1 ["a.bin"] 1).1.countP isDoneEv) = 1 :=
  ⟨(c1_completion_amended fs1 ["a.bin"] 1 (by decide) (by decide) (by decide)).1,
   (c1_completion_amended fs1 ["a.bin"] 1 (by decide) (by decide)
     (by decide)).2.1⟩

/-- C5: within one non-empty batch, every value handed to the progress
callback is the resolved count over the total count of the dispatched map, the
count never exceeds the positive total, the exact value of the reported ratio
lies in the closed interval from zero to one, and the sequence of reported
ratios is non-decreasing over successive ticks. -/
theorem c5_progress_bounds_monotone (fs : FS) (paths : List String)
    (fuel : Nat) (hne : paths ≠ []) :
    (∀ ct ∈ progressPayloads (Loader.load_with_progress fs paths fuel).1,
      ct.1 = Loader.countResolved (Loader.dispatch fs paths []).1 ∧
      ct.2 = (Loader.dispatch fs paths []).1.length ∧
      ct.1 ≤ ct.2 ∧ 0 < ct.2 ∧
      0 ≤ ratioQ ct.1 ct.2 ∧ ratioQ ct.1 ct.2 ≤ 1) ∧
    (progressPayloads (Loader.load_with_progress fs paths fuel).1).Pairwise
      (fun a b => ratioQ a.1 a.2 ≤ ratioQ b.1 b.2) := by
  obtain ⟨p, hp⟩ := List.exists_mem_of_ne_nil paths hne
  have hlook : lookupL (Loader.dispatch fs paths []).1 p
      = some (Loader.outcomeOf fs p) := by
    rw [dispatch_lookup]
    simp [hp]
  have hlen : 0 < (Loader.dispatch fs paths []).1.length :=
    lookupL_isSome_length _ p _ hlook
  have hbound : ∀ ct ∈ progressPayloads (Loader.load_with_progress fs paths fuel).1,
      ct.1 = Loader.countResolved (Loader.dispatch fs paths []).1 ∧
      ct.2 = (Loader.dispatch fs paths []).1.length ∧
      ct.1 ≤ ct.2 ∧ 0 < ct.2 ∧
      0 ≤ ratioQ ct.1 ct.2 ∧ ratioQ ct.1 ct.2 ≤ 1 := by
    rintro ⟨c, t⟩ hct
    obtain ⟨hc, ht⟩ := payload_of_mem fs paths fuel c t hct
    subst hc
    subst ht
    refine ⟨rfl, rfl, countResolved_le_length _, hlen, ?_, ?_⟩
    · exact div_nonneg (Nat.cast_nonneg _) (Nat.cast_nonneg _)
    · rw [ratioQ, div_le_one (by exact_mod_cast hlen)]
      exact_mod_cast countResolved_le_length _
  refine ⟨hbound, ?_⟩
  refine pairwise_of_all_eq _
    (Loader.countResolved (Loader.dispatch fs paths []).1,
     (Loader.dispatch fs paths []).1.length) _ ?_ le_rfl
  rintro ⟨c, t⟩ hct
  obtain ⟨hc, ht⟩ := payload_of_mem fs paths fuel c t hct
  simp [hc, ht]

/-- C5 witness: the concrete one-file batch reports the payload one over one,
whose ratio is within bounds, and its reported sequence is monotone. -/
theorem c5_progress_witness :
    (1, 1) ∈ progressPayloads (Loader.load_with_progress fs1 ["a.bin"] 1).1 ∧
    0 ≤ ratioQ 1 1 ∧ ratioQ 1 1 ≤ 1 := by
  have hmem : (1, 1) ∈ progressPayloads
      (Loader.load_with_progress fs1 ["a.bin"] 1).1 := by decide
  have h := (c5_progress_bounds_monotone fs1 ["a.bin"] 1 (by decide)).1
    (1, 1) hmem
  exact ⟨hmem, h.2.2.2.2.1, h.2.2.2.2.2⟩

/-- C6 counterexample: a zero-length batch is neither rejected nor fully
special-cased.  Completion does fire immediately on the first tick, but only
after the progress callback has been invoked with the payload zero over zero,
the division 0.0 / 0.0 of io.rs line 120 whose f32 value is NaN, an undefined
progress value. -/
theorem c6_empty_batch_counterexample :
    (Loader.load_with_progress fsEmptyFile [] 1).1
      = [Ev.sleep 100, Ev.progress 0 0, Ev.done []] ∧
    Ev.progress 0 0 ∈ (Loader.load_with_progress fsEmptyFile [] 1).1 ∧
    (Loader.load_with_progress fsEmptyFile [] 1).2 = some [] := by
  refine ⟨by decide, by decide, by decide⟩

/-- C6 amended: the code does not validate the precondition: a zero-length
batch runs, the first tick reports the undefined ratio zero over zero to the
progress callback, and completion then fires immediately with the empty
map. -/
theorem c6_empty_batch_amended (fs : FS) (fuel : Nat) (h : 0 < fuel) :
    (Loader.load_with_progress fs [] fuel).1
      = [Ev.sleep 100, Ev.progress 0 0, Ev.done []] ∧
    (Loader.load_with_progress fs [] fuel).2 = some [] := by
  obtain ⟨k, rfl⟩ : ∃ k, fuel = k + 1 := ⟨fuel - 1, by omega⟩
  constructor <;>
    simp [Loader.load_with_progress, Loader.dispatch, Loader.wait_local,
      Loader.countResolved]

/-- C6 witness: the amended behaviour at a concrete store and fuel. -/
theorem c6_empty_batch_witness :
    (Loader.load_with_progress fsEmptyFile [] 2).2 = some [] :=
  (c6_empty_batch_amended fsEmptyFile 2 (by decide)).2

/-- C7 counterexample: on the native build the dispatch loop interleaves
seeding and fetching.  With the two-path batch of fs2 the fetch of the first
path performs its terminal write while the second path is not yet seeded, so
the map is not fully seeded before the first fetch starts, as the explicit
trace shows. -/
theorem c7_seeding_counterexample :
    fullySeededBeforeFirstWrite ["a", "b"]
      (Loader.dispatch fs2 ["a", "b"] []).2 = false ∧
    (Loader.dispatch fs2 ["a", "b"] []).2
      = [Ev.seed "a", Ev.openRead "a", Ev.write "a" (Outcome.ok [1]),
         Ev.seed "b", Ev.openRead "b", Ev.write "b" (Outcome.ok [2])] := by
  refine ⟨by decide, by decide⟩

/-- C7 amended: each identifier gets its Pending placeholder immediately
before its own fetch rather than before the whole batch, so seeds and fetch
writes interleave, but every path is still seeded before its own write; the
poller only starts after the dispatch loop has finished, and the total count
it uses on every tick is the length of the fully dispatched map. -/
theorem c7_seeding_amended (fs : FS) (paths : List String) (fuel : Nat)
    (p : String) (hp : p ∈ paths) :
    seedPrecedesOwnWrite p (Loader.dispatch fs paths []).2 = true ∧
    (Loader.load_with_progress fs paths fuel).1
      = (Loader.dispatch fs paths []).2
        ++ (Loader.wait_local fuel (Loader.dispatch fs paths []).1).1 ∧
    (∀ c t, Ev.progress c t
        ∈ (Loader.wait_local fuel (Loader.dispatch fs paths []).1).1 →
      t = (Loader.dispatch fs paths []).1.length) := by
  refine ⟨?_, rfl, fun c t h => (wait_local_progress_mem _ _ _ _ h).2⟩
  rw [seedPrecedesOwnWrite, decide_eq_true_eq]
  exact seed_before_own_write fs paths [] p hp

/-- C7 witness: the second path of the concrete two-path batch is seeded
before its own write. -/
theorem c7_seeding_witness :
    seedPrecedesOwnWrite "b" (Loader.dispatch fs2 ["a", "b"] []).2 = true :=
  (c7_seeding_amended fs2 ["a", "b"] 1 "b" (by decide)).1

/-- C8: each fetch writes only to its own already seeded key and leaves the
key set unchanged; after dispatch the key set is exactly the set of requested
identifiers; and the poller never inserts, removes or modifies an entry: it
either keeps polling or hands over the dispatched map itself. -/
theorem c8_key_set_stable (fs : FS) (paths : List String) (fuel : Nat)
    (m : Loaded) (p : String) (hseeded : (lookupL m p).isSome = true) :
    (∀ q, (lookupL (Loader.load_file fs p m).1 q).isSome
      = (lookupL m q).isSome) ∧
    (∀ q, q ≠ p → lookupL (Loader.load_file fs p m).1 q = lookupL m q) ∧
    (∀ q, (lookupL (Loader.dispatch fs paths []).1 q).isSome = true ↔
      q ∈ paths) ∧
    ((Loader.wait_local fuel (Loader.dispatch fs paths []).1).2 = none ∨
     (Loader.wait_local fuel (Loader.dispatch fs paths []).1).2
       = some (Loader.dispatch fs paths []).1) := by
  refine ⟨?_, ?_, ?_, wait_local_result _ _⟩
  · intro q
    by_cases hq : q = p
    · subst hq
      simp [load_file_eq, lookupL_insertL, hseeded]
    · simp [load_file_eq, lookupL_insertL, hq]
  · intro q hq
    simp [load_file_eq, lookupL_insertL, hq]
  · intro q
    rw [dispatch_lookup]
    by_cases hq : q ∈ paths <;> simp [hq, lookupL]

/-- C8 witness: the concrete fetch of an already seeded key keeps the key set,
and the poller of a concrete batch hands over the dispatched map itself. -/
theorem c8_key_set_witness :
    (lookupL (Loader.load_file fs2 "a" [("a", Outcome.ok [])]).1 "a").isSome
      = (lookupL [("a", Outcome.ok [])] "a").isSome ∧
    ((Loader.wait_local 1 (Loader.dispatch fs2 ["a"] []).1).2 = none ∨
     (Loader.wait_local 1 (Loader.dispatch fs2 ["a"] []).1).2
       = some (Loader.dispatch fs2 ["a"] []).1) :=
  ⟨(c8_key_set_stable fs2 ["a"] 1 [("a", Outcome.ok [])] "a" (by decide)).1 "a",
   (c8_key_set_stable fs2 ["a"] 1 [("a", Outcome.ok [])] "a"
     (by decide)).2.2.2⟩

/-- C9 counterexample: on the native build the whole batch runs on the calling
thread before load_with_progress returns.  The trace of a concrete call, which
records exactly what the calling context performs, contains a synchronous
open-and-read, a thread sleep, and the completion callback, refuting that no
synchronous I/O or sleeping occurs on the calling context and that the
callbacks fire asynchronously relative to the call site. -/
theorem c9_synchronous_counterexample :
    ((Loader.load_with_progress fs1 ["a.bin"] 1).1.any isOpenReadEv) = true ∧
    ((Loader.load_with_progress fs1 ["a.bin"] 1).1.any isSleepEv) = true ∧
    ((Loader.load_with_progress fs1 ["a.bin"] 1).1.any isDoneEv) = true := by
  refine ⟨by decide, by decide, by decide⟩

/-- C9 amended: on the native build nothing is asynchronous: every requested
path is opened and read synchronously on the calling context inside
load_with_progress, every observed poll tick sleeps the calling thread, and
when the batch finishes the completion callback also runs inside the call, as
an event of its trace. -/
theorem c9_synchronous_amended (fs : FS) (paths : List String) (fuel : Nat)
    (p : String) (hp : p ∈ paths) (hfuel : 0 < fuel) :
    Ev.openRead p ∈ (Loader.load_with_progress fs paths fuel).1 ∧
    Ev.sleep 100 ∈ (Loader.load_with_progress fs paths fuel).1 ∧
    (∀ m, (Loader.load_with_progress fs paths fuel).2 = some m →
      Ev.done m ∈ (Loader.load_with_progress fs paths fuel).1) := by
  have htr : (Loader.load_with_progress fs paths fuel).1
      = (Loader.dispatch fs paths []).2
        ++ (Loader.wait_local fuel (Loader.dispatch fs paths []).1).1 := rfl
  refine ⟨?_, ?_, ?_⟩
  · rw [htr]
    exact List.mem_append_left _ (dispatch_trace_openRead fs paths [] p hp)
  · rw [htr]
    exact List.mem_append_right _ (wait_local_sleep_mem _ fuel hfuel)
  · intro m h
    rw [htr]
    exact List.mem_append_right _ (wait_local_done_mem _ m fuel h)

/-- C9 witness: the concrete one-file batch opens and reads on the calling
context and sleeps it. -/
theorem c9_synchronous_witness :
    Ev.openRead "a.bin" ∈ (Loader.load_with_progress fs1 ["a.bin"] 1).1 ∧
    Ev.sleep 100 ∈ (Loader.load_with_progress fs1 ["a.bin"] 1).1 :=
  ⟨(c9_synchronous_amended fs1 ["a.bin"] 1 "a.bin" (by decide) (by decide)).1,
   (c9_synchronous_amended fs1 ["a.bin"] 1 "a.bin" (by decide)
     (by decide)).2.1⟩

/-- C10: an entry that is a Success with an empty byte buffer, which is both
the pending placeholder of io.rs line 84 and the outcome of fetching a
zero-length resource, makes get return the empty byte buffer rather than an
error, so the lookup API cannot tell a still-pending entry from a zero-byte
success. -/
theorem c10_pending_ambiguity (m : Loaded) (p : String)
    (h : lookupL m p = some (Outcome.ok [])) :
    Loader.get m p = Except.ok [] ∧
    Loader.pendingPlaceholder = Outcome.ok [] ∧
    (∀ fs : FS, fs p = FileCase.bytes [] →
      Loader.outcomeOf fs p = Loader.pendingPlaceholder) := by
  refine ⟨by simp [Loader.get, h], rfl, ?_⟩
  intro fs hfs
  simp [Loader.outcomeOf, hfs, Loader.pendingPlaceholder]

/-- C10 witness: get on a concrete map whose entry is the empty Success
returns the empty buffer without error. -/
theorem c10_pending_ambiguity_witness :
    Loader.get [("empty.bin", Outcome.ok [])] "empty.bin" = Except.ok [] :=
  (c10_pending_ambiguity [("empty.bin", Outcome.ok [])] "empty.bin"
    (by decide)).1
